import Mathlib

/-!
Verification of the GlazingControlApp control core against its
natural-language specification.

The control-arbitration logic lives in `ControlManager`
(src/web/src/utils/toast.tsx, second document: the control management
system), the audit-log query in `LogsPanel.tsx`, and panel/group state in
`App.tsx`'s mock API.  The dwell-gated command executor of the backend
service (svc/app/service.py, simulator.py) is not part of the staged
sources; where a claim depends on it, the definition is modelled from the
spec and marked so in its doc comment.

JavaScript `Map` objects are embedded as association lists with
first-match lookup; `set` and `delete` keep the observable get/has
semantics of the source.
-/

namespace GlazingControl

/-- JS `Map.get`: the value stored at key `k`, if any. -/
def mget {α : Type} : List (String × α) → String → Option α
  | [], _ => none
  | kv :: t, k => if kv.1 = k then some kv.2 else mget t k

/-- JS `Map.delete`: remove the entry at key `k`. -/
def mdel {α : Type} : List (String × α) → String → List (String × α)
  | [], _ => []
  | kv :: t, k => if kv.1 = k then mdel t k else kv :: mdel t k

/-- JS `Map.set`: store `v` at key `k`, replacing any existing entry. -/
def mset {α : Type} (m : List (String × α)) (k : String) (v : α) :
    List (String × α) :=
  (k, v) :: mdel m k

theorem mget_mdel_self {α : Type} (m : List (String × α)) (k : String) :
    mget (mdel m k) k = none := by
  induction m with
  | nil => rfl
  | cons kv t ih =>
    by_cases hk : kv.1 = k
    · simpa [mdel, hk] using ih
    · simpa [mdel, mget, hk] using ih

theorem mget_mdel_ne {α : Type} (m : List (String × α)) (k k' : String)
    (h : k ≠ k') : mget (mdel m k) k' = mget m k' := by
  induction m with
  | nil => rfl
  | cons kv t ih =>
    by_cases hk : kv.1 = k
    · simpa [mdel, mget, hk, h] using ih
    · by_cases hk' : kv.1 = k'
      · simp [mdel, mget, hk, hk', Ne.symm h]
      · simpa [mdel, mget, hk, hk'] using ih

theorem mget_mset_self {α : Type} (m : List (String × α)) (k : String) (v : α) :
    mget (mset m k v) k = some v := by
  simp [mget, mset]

theorem mget_mset_ne {α : Type} (m : List (String × α)) (k k' : String) (v : α)
    (h : k ≠ k') : mget (mset m k v) k' = mget m k' := by
  simp only [mget, mset, if_neg h]
  exact mget_mdel_ne m k k' h

/-- `ControlSource` from src/web/src/utils/toast.tsx: a tagged variant
naming who is asking — a manual single-panel command, a group command, or
a scheduled routine step. -/
inductive ControlSource : Type
  | manual (panelId : String)
  | group (groupId : String) (panelIds : List String)
  | routine (routineId : String) (routineName : String)
      (panelIds : List String) (stepIndex : Option Nat)
  deriving DecidableEq, Repr

/-- `ControlManager.getPriority`: manual 3 > group 2 > routine 1. -/
def getPriority : ControlSource → Nat
  | .manual _ => 3
  | .group _ _ => 2
  | .routine _ _ _ _ => 1

/-- The panel ids implied by a source — the `panelIds` computation at the
top of both `takeControl` and `releaseControl`. -/
def panelIdsOf : ControlSource → List String
  | .manual p => [p]
  | .group _ ps => ps
  | .routine _ _ ps _ => ps

/-- `ControlManager.sourcesMatch`: same variant and same identifying
field (panel id, group id, or routine id); the panel lists are not
compared. -/
def sourcesMatch : ControlSource → ControlSource → Bool
  | .manual a, .manual b => a = b
  | .group a _, .group b _ => a = b
  | .routine a _ _ _, .routine b _ _ _ => a = b
  | _, _ => false

/-- `ControlManager.getGroupName`: the source always returns null. -/
def getGroupName (_groupId : String) : Option String := none

/-- An entry of the `activeGroups` / `activeRoutines` maps. -/
structure ActiveEntry : Type where
  name : String
  panelIds : List String
  startTime : Nat
  deriving DecidableEq, Repr

/-- `ControlState`: panel ownership plus the active group/routine maps. -/
structure ControlState : Type where
  panelControls : List (String × ControlSource)
  activeRoutines : List (String × ActiveEntry)
  activeGroups : List (String × ActiveEntry)
  deriving DecidableEq, Repr

/-- The empty `ControlState` a fresh `ControlManager` starts with. -/
def initialState : ControlState :=
  { panelControls := [], activeRoutines := [], activeGroups := [] }

/-- Result of `takeControl`: the updated state, `success` (no conflicts)
and the conflicting panel ids in loop order. -/
structure TakeResult : Type where
  state : ControlState
  success : Bool
  conflicts : List String
  deriving DecidableEq, Repr

/-- One iteration of the `takeControl` loop: an owned panel whose owner
has priority ≥ the requester's is a conflict unless `force`; otherwise
the requester is recorded as owner. -/
def takeStep (pr : Nat) (source : ControlSource) (force : Bool)
    (acc : List (String × ControlSource) × List String) (panelId : String) :
    List (String × ControlSource) × List String :=
  match mget acc.1 panelId with
  | some existing =>
      if !force && pr ≤ getPriority existing then
        (acc.1, acc.2 ++ [panelId])
      else
        (mset acc.1 panelId source, acc.2)
  | none => (mset acc.1 panelId source, acc.2)

/-- `ControlManager.takeControl`, with the `Date.now()` read passed in as
`now`.  Claims each implied panel by priority, then unconditionally
records the group/routine as active (the group name falls back to the
group id because `getGroupName` returns null). -/
def takeControl (st : ControlState) (source : ControlSource) (force : Bool)
    (now : Nat) : TakeResult :=
  let pr := getPriority source
  let folded := (panelIdsOf source).foldl (takeStep pr source force)
    (st.panelControls, [])
  let st1 : ControlState := { st with panelControls := folded.1 }
  let st2 : ControlState :=
    match source with
    | .group gid ps =>
        let entry : ActiveEntry := ⟨(getGroupName gid).getD gid, ps, now⟩
        { st1 with activeGroups := mset st1.activeGroups gid entry }
    | .routine rid rname ps _ =>
        let entry : ActiveEntry := ⟨rname, ps, now⟩
        { st1 with activeRoutines := mset st1.activeRoutines rid entry }
    | .manual _ => st1
  { state := st2, success := folded.2.isEmpty, conflicts := folded.2 }

/-- One iteration of the `releaseControl` loop: delete the ownership
record only when the recorded owner matches the releasing source. -/
def releaseStep (source : ControlSource)
    (pc : List (String × ControlSource)) (panelId : String) :
    List (String × ControlSource) :=
  match mget pc panelId with
  | some existing =>
      if sourcesMatch existing source then mdel pc panelId else pc
  | none => pc

/-- `ControlManager.releaseControl`: drop the source's active-group or
active-routine entry unconditionally, then release each implied panel
whose recorded owner matches the source. -/
def releaseControl (st : ControlState) (source : ControlSource) :
    ControlState :=
  let st1 : ControlState :=
    match source with
    | .manual _ => st
    | .group gid _ => { st with activeGroups := mdel st.activeGroups gid }
    | .routine rid _ _ _ =>
        { st with activeRoutines := mdel st.activeRoutines rid }
  { st1 with panelControls :=
      (panelIdsOf source).foldl (releaseStep source) st1.panelControls }

/-- `ControlManager.getControlSource`. -/
def getControlSource (st : ControlState) (panelId : String) :
    Option ControlSource :=
  mget st.panelControls panelId

/-- `ControlManager.getActiveControllers`: a copy of the state. -/
def getActiveControllers (st : ControlState) : ControlState := st

/-- The condition under which the `takeControl` loop grants a panel:
unclaimed, or forced, or the existing owner has strictly lower
priority.  This is the negation of the loop's conflict test. -/
def grantCond (pr : Nat) (force : Bool)
    (pc : List (String × ControlSource)) (p : String) : Bool :=
  match mget pc p with
  | none => true
  | some existing => force || decide (getPriority existing < pr)

/-- The grant condition as claim C1 words it: unclaimed, or claimed by a
lower-or-equal priority source with `force` true. -/
def claimGrantCond (s : ControlSource) (force : Bool)
    (pc : List (String × ControlSource)) (p : String) : Bool :=
  match mget pc p with
  | none => true
  | some existing => decide (getPriority existing ≤ getPriority s) && force

theorem takeStep_eq_none (pr : Nat) (s : ControlSource) (force : Bool)
    (acc : List (String × ControlSource) × List String) (a : String)
    (hg : mget acc.1 a = none) :
    takeStep pr s force acc a = (mset acc.1 a s, acc.2) := by
  unfold takeStep
  rw [hg]

theorem takeStep_eq_some (pr : Nat) (s : ControlSource) (force : Bool)
    (acc : List (String × ControlSource) × List String) (a : String)
    (ex : ControlSource) (hg : mget acc.1 a = some ex) :
    takeStep pr s force acc a =
      if !force && pr ≤ getPriority ex then (acc.1, acc.2 ++ [a])
      else (mset acc.1 a s, acc.2) := by
  unfold takeStep
  rw [hg]

theorem takeStep_fst_ne (pr : Nat) (s : ControlSource) (force : Bool)
    (acc : List (String × ControlSource) × List String) (a p : String)
    (h : a ≠ p) :
    mget (takeStep pr s force acc a).1 p = mget acc.1 p := by
  cases hx : mget acc.1 a with
  | none =>
    rw [takeStep_eq_none pr s force acc a hx]
    exact mget_mset_ne _ _ _ _ h
  | some ex =>
    rw [takeStep_eq_some pr s force acc a ex hx]
    by_cases hc : (!force && pr ≤ getPriority ex) = true
    · rw [if_pos hc]
    · rw [if_neg hc]
      exact mget_mset_ne _ _ _ _ h

theorem takeStep_snd_sub (pr : Nat) (s : ControlSource) (force : Bool)
    (acc : List (String × ControlSource) × List String) (a x : String)
    (hx : x ∈ (takeStep pr s force acc a).2) : x ∈ acc.2 ∨ x = a := by
  cases hg : mget acc.1 a with
  | none =>
    rw [takeStep_eq_none pr s force acc a hg] at hx
    exact Or.inl hx
  | some ex =>
    rw [takeStep_eq_some pr s force acc a ex hg] at hx
    by_cases hc : (!force && pr ≤ getPriority ex) = true
    · rw [if_pos hc] at hx
      simpa using hx
    · rw [if_neg hc] at hx
      exact Or.inl hx

theorem takeStep_snd_mono (pr : Nat) (s : ControlSource) (force : Bool)
    (acc : List (String × ControlSource) × List String) (a x : String)
    (hx : x ∈ acc.2) : x ∈ (takeStep pr s force acc a).2 := by
  cases hg : mget acc.1 a with
  | none =>
    rw [takeStep_eq_none pr s force acc a hg]
    exact hx
  | some ex =>
    rw [takeStep_eq_some pr s force acc a ex hg]
    by_cases hc : (!force && pr ≤ getPriority ex) = true
    · rw [if_pos hc]; exact List.mem_append_left _ hx
    · rw [if_neg hc]; exact hx

theorem takeFold_mget_not_mem (pr : Nat) (s : ControlSource) (force : Bool) :
    ∀ (l : List String) (acc : List (String × ControlSource) × List String)
      (p : String), p ∉ l →
      mget (l.foldl (takeStep pr s force) acc).1 p = mget acc.1 p := by
  intro l
  induction l with
  | nil => intro acc p _; rfl
  | cons a t ih =>
    intro acc p hp
    have ha : a ≠ p := fun h => hp (h ▸ List.mem_cons_self a t)
    have ht : p ∉ t := fun h => hp (List.mem_cons_of_mem a h)
    rw [List.foldl_cons, ih _ p ht, takeStep_fst_ne pr s force acc a p ha]

theorem takeFold_conflicts_mono (pr : Nat) (s : ControlSource) (force : Bool) :
    ∀ (l : List String) (acc : List (String × ControlSource) × List String)
      (x : String), x ∈ acc.2 → x ∈ (l.foldl (takeStep pr s force) acc).2 := by
  intro l
  induction l with
  | nil => intro acc x hx; exact hx
  | cons a t ih =>
    intro acc x hx
    rw [List.foldl_cons]
    exact ih _ x (takeStep_snd_mono pr s force acc a x hx)

theorem takeFold_conflicts_sub (pr : Nat) (s : ControlSource) (force : Bool) :
    ∀ (l : List String) (acc : List (String × ControlSource) × List String)
      (x : String), x ∈ (l.foldl (takeStep pr s force) acc).2 →
      x ∈ acc.2 ∨ x ∈ l := by
  intro l
  induction l with
  | nil => intro acc x hx; exact Or.inl hx
  | cons a t ih =>
    intro acc x hx
    rw [List.foldl_cons] at hx
    rcases ih _ x hx with h | h
    · rcases takeStep_snd_sub pr s force acc a x h with h' | h'
      · exact Or.inl h'
      · exact Or.inr (h' ▸ List.mem_cons_self a t)
    · exact Or.inr (List.mem_cons_of_mem a h)

/-- Per-panel characterisation of the `takeControl` loop on a duplicate-free
panel list: the final owner of `p` follows `grantCond` evaluated on the
initial map, and `p` lands in the conflicts exactly when `grantCond`
fails. -/
theorem takeFold_spec (pr : Nat) (s : ControlSource) (force : Bool) :
    ∀ (l : List String) (pc : List (String × ControlSource))
      (cs : List String) (p : String), l.Nodup → p ∈ l →
      (mget (l.foldl (takeStep pr s force) (pc, cs)).1 p =
        if grantCond pr force pc p then some s else mget pc p)
      ∧ (p ∈ (l.foldl (takeStep pr s force) (pc, cs)).2 ↔
        p ∈ cs ∨ grantCond pr force pc p = false) := by
  intro l
  induction l with
  | nil => intro pc cs p _ hp; cases hp
  | cons a t ih =>
    intro pc cs p hnd hp
    have hat : a ∉ t := (List.nodup_cons.mp hnd).1
    have hndt : t.Nodup := (List.nodup_cons.mp hnd).2
    rw [List.foldl_cons]
    by_cases hap : a = p
    · subst hap
      have hstep : takeStep pr s force (pc, cs) a =
          if grantCond pr force pc a then (mset pc a s, cs)
          else (pc, cs ++ [a]) := by
        cases hg : mget pc a with
        | none =>
          rw [takeStep_eq_none pr s force (pc, cs) a hg]
          unfold grantCond
          rw [hg]
          simp
        | some ex =>
          rw [takeStep_eq_some pr s force (pc, cs) a ex hg]
          unfold grantCond
          rw [hg]
          cases force with
          | true => simp
          | false =>
            by_cases hlt : getPriority ex < pr
            · simp [hlt, Nat.not_le.mpr hlt]
            · simp [hlt, Nat.le_of_not_lt hlt]
      by_cases hg : grantCond pr force pc a = true
      · rw [hstep, if_pos hg]
        constructor
        · rw [takeFold_mget_not_mem pr s force t _ a hat, if_pos hg]
          exact mget_mset_self pc a s
        · rw [hg]
          constructor
          · intro hmem
            rcases takeFold_conflicts_sub pr s force t _ a hmem with h | h
            · exact Or.inl h
            · exact absurd h hat
          · intro hmem
            rcases hmem with h | h
            · exact takeFold_conflicts_mono pr s force t _ a h
            · cases h
      · rw [hstep, if_neg hg]
        rw [Bool.not_eq_true] at hg
        constructor
        · rw [takeFold_mget_not_mem pr s force t _ a hat, hg]
          rfl
        · rw [hg]
          constructor
          · intro _; exact Or.inr rfl
          · intro _
            exact takeFold_conflicts_mono pr s force t _ a
              (List.mem_append_right cs (List.mem_singleton.mpr rfl))
    · have hpt : p ∈ t := by
        rcases List.mem_cons.mp hp with h | h
        · exact absurd h.symm hap
        · exact h
      have hfst : mget (takeStep pr s force (pc, cs) a).1 p = mget pc p :=
        takeStep_fst_ne pr s force (pc, cs) a p hap
      have hgc : grantCond pr force (takeStep pr s force (pc, cs) a).1 p =
          grantCond pr force pc p := by
        unfold grantCond
        rw [hfst]
      obtain ⟨h1, h2⟩ := ih (takeStep pr s force (pc, cs) a).1
        (takeStep pr s force (pc, cs) a).2 p hndt hpt
      constructor
      · rw [h1, hgc, hfst]
      · rw [h2, hgc]
        constructor
        · intro h
          rcases h with h | h
          · rcases takeStep_snd_sub pr s force (pc, cs) a p h with h' | h'
            · exact Or.inl h'
            · exact absurd h'.symm hap
          · exact Or.inr h
        · intro h
          rcases h with h | h
          · exact Or.inl (takeStep_snd_mono pr s force (pc, cs) a p h)
          · exact Or.inr h

/-- A panel owned by an equal-or-higher priority source keeps its owner
throughout an unforced `takeControl` loop (duplicates allowed). -/
theorem takeFold_preserve_high (pr : Nat) (s : ControlSource) :
    ∀ (l : List String) (acc : List (String × ControlSource) × List String)
      (p : String) (ex : ControlSource), mget acc.1 p = some ex →
      pr ≤ getPriority ex →
      mget (l.foldl (takeStep pr s false) acc).1 p = some ex := by
  intro l
  induction l with
  | nil => intro acc p ex hex _; exact hex
  | cons a t ih =>
    intro acc p ex hex hpr
    rw [List.foldl_cons]
    by_cases hap : a = p
    · subst hap
      have hstep : (takeStep pr s false acc a).1 = acc.1 := by
        rw [takeStep_eq_some pr s false acc a ex hex]
        simp [hpr]
      exact ih _ a ex (hstep ▸ hex) hpr
    · exact ih _ p ex
        ((takeStep_fst_ne pr s false acc a p hap) ▸ hex) hpr

/-- A panel owned by an equal-or-higher priority source is reported as a
conflict by an unforced `takeControl` loop. -/
theorem takeFold_conflict_mem (pr : Nat) (s : ControlSource) :
    ∀ (l : List String) (acc : List (String × ControlSource) × List String)
      (p : String) (ex : ControlSource), p ∈ l → mget acc.1 p = some ex →
      pr ≤ getPriority ex →
      p ∈ (l.foldl (takeStep pr s false) acc).2 := by
  intro l
  induction l with
  | nil => intro acc p ex hp; cases hp
  | cons a t ih =>
    intro acc p ex hp hex hpr
    rw [List.foldl_cons]
    by_cases hap : a = p
    · subst hap
      have hstep : takeStep pr s false acc a = (acc.1, acc.2 ++ [a]) := by
        rw [takeStep_eq_some pr s false acc a ex hex]
        simp [hpr]
      rw [hstep]
      exact takeFold_conflicts_mono pr s false t _ a
        (List.mem_append_right acc.2 (List.mem_singleton.mpr rfl))
    · have hpt : p ∈ t := by
        rcases List.mem_cons.mp hp with h | h
        · exact absurd h.symm hap
        · exact h
      exact ih _ p ex hpt
        ((takeStep_fst_ne pr s false acc a p hap) ▸ hex) hpr

/-- Once the requesting source owns a panel, the rest of the loop keeps
it as owner. -/
theorem takeFold_owner_stable (pr : Nat) (s : ControlSource) (force : Bool) :
    ∀ (l : List String) (acc : List (String × ControlSource) × List String)
      (p : String), mget acc.1 p = some s →
      mget (l.foldl (takeStep pr s force) acc).1 p = some s := by
  intro l
  induction l with
  | nil => intro acc p hp; exact hp
  | cons a t ih =>
    intro acc p hp
    rw [List.foldl_cons]
    by_cases hap : a = p
    · subst hap
      have : mget (takeStep pr s force acc a).1 a = some s := by
        rw [takeStep_eq_some pr s force acc a s hp]
        by_cases hc : (!force && pr ≤ getPriority s) = true
        · rw [if_pos hc]; exact hp
        · rw [if_neg hc]; exact mget_mset_self _ a s
      exact ih _ a this
    · exact ih _ p ((takeStep_fst_ne pr s force acc a p hap) ▸ hp)

/-- Every panel of the loop's list ends granted to the source or in the
conflicts list. -/
theorem takeFold_grant_or_conflict (pr : Nat) (s : ControlSource)
    (force : Bool) :
    ∀ (l : List String) (acc : List (String × ControlSource) × List String)
      (p : String), p ∈ l →
      mget (l.foldl (takeStep pr s force) acc).1 p = some s ∨
      p ∈ (l.foldl (takeStep pr s force) acc).2 := by
  intro l
  induction l with
  | nil => intro acc p hp; cases hp
  | cons a t ih =>
    intro acc p hp
    rw [List.foldl_cons]
    by_cases hap : a = p
    · subst hap
      cases hx : mget acc.1 a with
      | none =>
        rw [takeStep_eq_none pr s force acc a hx]
        exact Or.inl (takeFold_owner_stable pr s force t _ a
          (mget_mset_self _ a s))
      | some ex =>
        rw [takeStep_eq_some pr s force acc a ex hx]
        by_cases hc : (!force && pr ≤ getPriority ex) = true
        · rw [if_pos hc]
          exact Or.inr (takeFold_conflicts_mono pr s force t _ a
            (List.mem_append_right acc.2 (List.mem_singleton.mpr rfl)))
        · rw [if_neg hc]
          exact Or.inl (takeFold_owner_stable pr s force t _ a
            (mget_mset_self _ a s))
    · have hpt : p ∈ t := by
        rcases List.mem_cons.mp hp with h | h
        · exact absurd h.symm hap
        · exact h
      exact ih _ p hpt

theorem releaseStep_eq_none (s : ControlSource)
    (pc : List (String × ControlSource)) (a : String)
    (hg : mget pc a = none) : releaseStep s pc a = pc := by
  unfold releaseStep
  rw [hg]

theorem releaseStep_eq_some (s : ControlSource)
    (pc : List (String × ControlSource)) (a : String) (ex : ControlSource)
    (hg : mget pc a = some ex) :
    releaseStep s pc a =
      if sourcesMatch ex s then mdel pc a else pc := by
  unfold releaseStep
  rw [hg]

theorem releaseStep_ne (s : ControlSource)
    (pc : List (String × ControlSource)) (a p : String) (h : a ≠ p) :
    mget (releaseStep s pc a) p = mget pc p := by
  cases hg : mget pc a with
  | none => rw [releaseStep_eq_none s pc a hg]
  | some ex =>
    rw [releaseStep_eq_some s pc a ex hg]
    by_cases hm : sourcesMatch ex s = true
    · rw [if_pos hm]; exact mget_mdel_ne pc a p h
    · rw [if_neg hm]

theorem relFold_mget_not_mem (s : ControlSource) :
    ∀ (l : List String) (pc : List (String × ControlSource)) (p : String),
      p ∉ l → mget (l.foldl (releaseStep s) pc) p = mget pc p := by
  intro l
  induction l with
  | nil => intro pc p _; rfl
  | cons a t ih =>
    intro pc p hp
    have ha : a ≠ p := fun h => hp (h ▸ List.mem_cons_self a t)
    have ht : p ∉ t := fun h => hp (List.mem_cons_of_mem a h)
    rw [List.foldl_cons, ih _ p ht, releaseStep_ne s pc a p ha]

/-- A panel whose recorded owner does not match the releasing source is
untouched by the `releaseControl` loop. -/
theorem relFold_keep_unmatched (s : ControlSource) :
    ∀ (l : List String) (pc : List (String × ControlSource)) (p : String)
      (ex : ControlSource), mget pc p = some ex →
      sourcesMatch ex s = false →
      mget (l.foldl (releaseStep s) pc) p = some ex := by
  intro l
  induction l with
  | nil => intro pc p ex hex _; exact hex
  | cons a t ih =>
    intro pc p ex hex hm
    rw [List.foldl_cons]
    by_cases hap : a = p
    · subst hap
      have hstep : releaseStep s pc a = pc := by
        rw [releaseStep_eq_some s pc a ex hex, hm]
        simp
      rw [hstep]
      exact ih _ a ex hex hm
    · exact ih _ p ex ((releaseStep_ne s pc a p hap) ▸ hex) hm

theorem relFold_none_stable (s : ControlSource) :
    ∀ (l : List String) (pc : List (String × ControlSource)) (p : String),
      mget pc p = none → mget (l.foldl (releaseStep s) pc) p = none := by
  intro l
  induction l with
  | nil => intro pc p hp; exact hp
  | cons a t ih =>
    intro pc p hp
    rw [List.foldl_cons]
    by_cases hap : a = p
    · subst hap
      rw [releaseStep_eq_none s pc a hp]
      exact ih _ a hp
    · exact ih _ p ((releaseStep_ne s pc a p hap) ▸ hp)

/-- A panel whose recorded owner matches the releasing source ends
unclaimed after the `releaseControl` loop. -/
theorem relFold_deleted (s : ControlSource) :
    ∀ (l : List String) (pc : List (String × ControlSource)) (p : String)
      (ex : ControlSource), p ∈ l → mget pc p = some ex →
      sourcesMatch ex s = true →
      mget (l.foldl (releaseStep s) pc) p = none := by
  intro l
  induction l with
  | nil => intro pc p ex hp; cases hp
  | cons a t ih =>
    intro pc p ex hp hex hm
    rw [List.foldl_cons]
    by_cases hap : a = p
    · subst hap
      have hstep : releaseStep s pc a = mdel pc a := by
        rw [releaseStep_eq_some s pc a ex hex, hm]
        simp
      rw [hstep]
      exact relFold_none_stable s t _ a (mget_mdel_self pc a)
    · have hpt : p ∈ t := by
        rcases List.mem_cons.mp hp with h | h
        · exact absurd h.symm hap
        · exact h
      exact ih _ p ex hpt ((releaseStep_ne s pc a p hap) ▸ hex) hm

theorem takeControl_panelControls (st : ControlState) (s : ControlSource)
    (force : Bool) (now : Nat) :
    (takeControl st s force now).state.panelControls =
      ((panelIdsOf s).foldl (takeStep (getPriority s) s force)
        (st.panelControls, [])).1 := by
  cases s <;> rfl

theorem takeControl_conflicts (st : ControlState) (s : ControlSource)
    (force : Bool) (now : Nat) :
    (takeControl st s force now).conflicts =
      ((panelIdsOf s).foldl (takeStep (getPriority s) s force)
        (st.panelControls, [])).2 := by
  cases s <;> rfl

theorem releaseControl_panelControls (st : ControlState) (s : ControlSource) :
    (releaseControl st s).panelControls =
      (panelIdsOf s).foldl (releaseStep s) st.panelControls := by
  cases s <;> rfl

theorem grantCond_eq_true_iff (pr : Nat) (force : Bool)
    (pc : List (String × ControlSource)) (p : String) :
    grantCond pr force pc p = true ↔
      (mget pc p = none ∨ force = true ∨
        ∃ ex, mget pc p = some ex ∧ getPriority ex < pr) := by
  unfold grantCond
  cases hg : mget pc p with
  | none => simp
  | some ex => cases force <;> simp

theorem grantCond_eq_false_iff (pr : Nat) (force : Bool)
    (pc : List (String × ControlSource)) (p : String) :
    grantCond pr force pc p = false ↔
      ∃ ex, mget pc p = some ex ∧ force = false ∧ pr ≤ getPriority ex := by
  unfold grantCond
  cases hg : mget pc p with
  | none => simp
  | some ex => cases force <;> simp [Nat.not_lt]

/-- Claim C1, counterexample.  The claim states that a claim is granted
if and only if the panel is unclaimed, or it is claimed by a
lower-or-equal priority source AND `force` is true.  The code, however,
also grants when the existing owner has strictly lower priority and
`force` is false: a manual claim over a routine-owned panel is granted
without force, refuting the claim's "only if" direction
(`claimGrantCond` is false here, yet the owner is replaced and no
conflict is reported). -/
theorem takeControl_overrides_lower_without_force :
    getControlSource
      (takeControl ⟨[("P1", .routine "R1" "Morning" ["P1"] none)], [], []⟩
        (.manual "P1") false 0).state "P1" = some (.manual "P1")
    ∧ (takeControl ⟨[("P1", .routine "R1" "Morning" ["P1"] none)], [], []⟩
        (.manual "P1") false 0).conflicts = []
    ∧ claimGrantCond (.manual "P1") false
        [("P1", ControlSource.routine "R1" "Morning" ["P1"] none)] "P1" = false := by
  refine ⟨rfl, rfl, rfl⟩

/-- Claim C1 (amended): for every source and panel in its (duplicate-free)
panel set, `takeControl` grants and records the claim iff the panel is
unclaimed, `force` is true, or the recorded owner has strictly lower
priority; the panel is reported as a conflict iff it is owned by an
equal-or-higher priority source and `force` is false, in which case its
recorded owner is unchanged. -/
theorem takeControl_grant_characterisation (st : ControlState)
    (s : ControlSource) (force : Bool) (now : Nat) (p : String)
    (hnd : (panelIdsOf s).Nodup) (hp : p ∈ panelIdsOf s) :
    ((getControlSource st p = none ∨ force = true ∨
        (∃ ex, getControlSource st p = some ex ∧
          getPriority ex < getPriority s)) →
      getControlSource (takeControl st s force now).state p = some s)
    ∧ (∀ ex, getControlSource st p = some ex → force = false →
        getPriority s ≤ getPriority ex →
        getControlSource (takeControl st s force now).state p = some ex)
    ∧ (p ∈ (takeControl st s force now).conflicts ↔
        ∃ ex, getControlSource st p = some ex ∧ force = false ∧
          getPriority s ≤ getPriority ex) := by
  obtain ⟨h1, h2⟩ := takeFold_spec (getPriority s) s force (panelIdsOf s)
    st.panelControls [] p hnd hp
  have hpc : getControlSource (takeControl st s force now).state p =
      mget ((panelIdsOf s).foldl (takeStep (getPriority s) s force)
        (st.panelControls, [])).1 p := by
    unfold getControlSource
    rw [takeControl_panelControls]
  refine ⟨?_, ?_, ?_⟩
  · intro hcond
    have hg : grantCond (getPriority s) force st.panelControls p = true :=
      (grantCond_eq_true_iff _ _ _ _).mpr hcond
    rw [hpc, h1, if_pos hg]
  · intro ex hex hforce hle
    have hg : grantCond (getPriority s) force st.panelControls p = false :=
      (grantCond_eq_false_iff _ _ _ _).mpr ⟨ex, hex, hforce, hle⟩
    rw [hpc, h1, if_neg (by rw [hg]; exact Bool.false_ne_true)]
    exact hex
  · rw [takeControl_conflicts, h2]
    simp only [List.not_mem_nil, false_or]
    exact grantCond_eq_false_iff _ _ _ _

/-- Witness for C1's theorem: a manual claim on an unclaimed panel is
granted. -/
theorem takeControl_grant_characterisation_witness :
    getControlSource
      (takeControl initialState (.manual "P1") false 0).state "P1" =
      some (.manual "P1") :=
  (takeControl_grant_characterisation initialState (.manual "P1") false 0 "P1"
    (by decide) (by decide)).1 (Or.inl rfl)

/-- Claim C3: `releaseControl` removes a panel's ownership record exactly
when the recorded owner matches the releasing source on variant and
identifying field (`sourcesMatch`); a non-matching record is left
untouched. -/
theorem releaseControl_exact_match (st : ControlState) (s : ControlSource)
    (p : String) (hp : p ∈ panelIdsOf s) :
    (∀ ex, getControlSource st p = some ex → sourcesMatch ex s = true →
      getControlSource (releaseControl st s) p = none)
    ∧ (∀ ex, getControlSource st p = some ex → sourcesMatch ex s = false →
      getControlSource (releaseControl st s) p = some ex) := by
  have hpc : ∀ q, getControlSource (releaseControl st s) q =
      mget ((panelIdsOf s).foldl (releaseStep s) st.panelControls) q := by
    intro q
    unfold getControlSource
    rw [releaseControl_panelControls]
  constructor
  · intro ex hex hm
    rw [hpc]
    exact relFold_deleted s (panelIdsOf s) st.panelControls p ex hp hex hm
  · intro ex hex hm
    rw [hpc]
    exact relFold_keep_unmatched s (panelIdsOf s) st.panelControls p ex hex hm

/-- Witness for C3's theorem: releasing a manual claim that is the
recorded owner leaves the panel unclaimed. -/
theorem releaseControl_exact_match_witness :
    getControlSource
      (releaseControl ⟨[("P1", .manual "P1")], [], []⟩ (.manual "P1"))
      "P1" = none :=
  (releaseControl_exact_match ⟨[("P1", .manual "P1")], [], []⟩ (.manual "P1")
    "P1" (by decide)).1 (.manual "P1") rfl rfl

/-- Claim C4: an unforced `takeControl` never replaces the owner of a
panel whose current owner has priority greater than or equal to the
requesting source's priority. -/
theorem takeControl_preserves_higher_owner (st : ControlState)
    (s : ControlSource) (now : Nat) (p : String) (ex : ControlSource)
    (hex : getControlSource st p = some ex)
    (hpr : getPriority s ≤ getPriority ex) :
    getControlSource (takeControl st s false now).state p = some ex := by
  unfold getControlSource
  rw [takeControl_panelControls]
  exact takeFold_preserve_high (getPriority s) s (panelIdsOf s)
    (st.panelControls, []) p ex hex hpr

/-- Witness for C4's theorem: a routine cannot displace a manual owner
without force. -/
theorem takeControl_preserves_higher_owner_witness :
    getControlSource
      (takeControl ⟨[("P1", .manual "P1")], [], []⟩
        (.routine "R1" "Morning" ["P1"] none) false 0).state "P1" =
      some (.manual "P1") :=
  takeControl_preserves_higher_owner ⟨[("P1", .manual "P1")], [], []⟩
    (.routine "R1" "Morning" ["P1"] none) 0 "P1" (.manual "P1") rfl
    (by decide)

/-- Claim C5: a panel already claimed by a source of equal priority —
the identical source resubmitting its claim included — is reported as a
conflict by an unforced `takeControl`, and its recorded owner is
unchanged; equality of priority does not grant precedence. -/
theorem takeControl_equal_priority_conflict (st : ControlState)
    (s : ControlSource) (now : Nat) (p : String) (ex : ControlSource)
    (hp : p ∈ panelIdsOf s) (hex : getControlSource st p = some ex)
    (heq : getPriority ex = getPriority s) :
    p ∈ (takeControl st s false now).conflicts
    ∧ getControlSource (takeControl st s false now).state p = some ex := by
  have hle : getPriority s ≤ getPriority ex := heq.ge
  constructor
  · rw [takeControl_conflicts]
    exact takeFold_conflict_mem (getPriority s) s (panelIdsOf s)
      (st.panelControls, []) p ex hp hex hle
  · unfold getControlSource
    rw [takeControl_panelControls]
    exact takeFold_preserve_high (getPriority s) s (panelIdsOf s)
      (st.panelControls, []) p ex hex hle

/-- Witness for C5's theorem: submitting the same group claim twice with
no state change in between yields a conflict on the second attempt (the
first claim is still held). -/
theorem takeControl_equal_priority_conflict_witness :
    "P1" ∈ (takeControl
      (takeControl initialState (.group "G1" ["P1"]) false 0).state
      (.group "G1" ["P1"]) false 1).conflicts :=
  (takeControl_equal_priority_conflict
    (takeControl initialState (.group "G1" ["P1"]) false 0).state
    (.group "G1" ["P1"]) 1 "P1" (.group "G1" ["P1"]) (by decide) rfl
    rfl).1

/-- Claim C6, counterexample.  The claim's example has a group claim over
{P01 owned by a routine, P02 unclaimed} with force=false claiming only
P02 and reporting P01 as the only conflict.  In the code, a routine owner
has strictly LOWER priority than a group requester, so P01 is granted as
well: the conflicts list is empty and both panels end up owned by the
group. -/
theorem takeControl_group_over_routine_no_conflict :
    (takeControl ⟨[("P01", .routine "R1" "Morning" ["P01"] none)], [], []⟩
      (.group "G1" ["P01", "P02"]) false 0).conflicts = []
    ∧ getControlSource
      (takeControl ⟨[("P01", .routine "R1" "Morning" ["P01"] none)], [], []⟩
        (.group "G1" ["P01", "P02"]) false 0).state "P01" =
      some (.group "G1" ["P01", "P02"])
    ∧ getControlSource
      (takeControl ⟨[("P01", .routine "R1" "Morning" ["P01"] none)], [], []⟩
        (.group "G1" ["P01", "P02"]) false 0).state "P02" =
      some (.group "G1" ["P01", "P02"]) := by
  refine ⟨rfl, rfl, rfl⟩

/-- Claim C6 (amended): an unforced claim with a non-empty conflicts set
is partially applied at the arbiter level — every non-conflicting panel
of the (duplicate-free) panel set has its ownership recorded for the new
source, while each conflicting panel keeps its previous owner.  (The
claim's example must use an equal-or-higher priority owner, e.g. another
group; a routine-owned panel is granted to a group without conflict.) -/
theorem takeControl_partial_application (st : ControlState)
    (s : ControlSource) (force : Bool) (now : Nat) (p : String)
    (hnd : (panelIdsOf s).Nodup) (hp : p ∈ panelIdsOf s) :
    (p ∈ (takeControl st s force now).conflicts →
      getControlSource (takeControl st s force now).state p =
        getControlSource st p)
    ∧ (p ∉ (takeControl st s force now).conflicts →
      getControlSource (takeControl st s force now).state p = some s) := by
  obtain ⟨h1, h2⟩ := takeFold_spec (getPriority s) s force (panelIdsOf s)
    st.panelControls [] p hnd hp
  have hpc : getControlSource (takeControl st s force now).state p =
      mget ((panelIdsOf s).foldl (takeStep (getPriority s) s force)
        (st.panelControls, [])).1 p := by
    unfold getControlSource
    rw [takeControl_panelControls]
  have hcf : p ∈ (takeControl st s force now).conflicts ↔
      grantCond (getPriority s) force st.panelControls p = false := by
    rw [takeControl_conflicts, h2]
    simp
  constructor
  · intro hmem
    have hg := hcf.mp hmem
    rw [hpc, h1, if_neg (by rw [hg]; exact Bool.false_ne_true)]
    rfl
  · intro hmem
    have hg : grantCond (getPriority s) force st.panelControls p = true := by
      cases hgc : grantCond (getPriority s) force st.panelControls p with
      | true => rfl
      | false => exact absurd (hcf.mpr hgc) hmem
    rw [hpc, h1, if_pos hg]

/-- Witness for C6's theorem: a group claim over {P01 owned by another
group, P02 unclaimed} claims P02 while P01 keeps its owner. -/
theorem takeControl_partial_application_witness :
    getControlSource
      (takeControl ⟨[("P01", .group "G0" ["P01"])], [], []⟩
        (.group "G1" ["P01", "P02"]) false 0).state "P02" =
      some (.group "G1" ["P01", "P02"]) :=
  (takeControl_partial_application ⟨[("P01", .group "G0" ["P01"])], [], []⟩
    (.group "G1" ["P01", "P02"]) false 0 "P02" (by decide) (by decide)).2
    (by decide)

/-- Claim C9: `takeControl` unconditionally inserts a group (resp.
routine) source into the active-groups (resp. active-routines) map with
its panel list and the start time — for every prior state, so in
particular even when every panel of the set is reported as a conflict
and no ownership is granted; the source then shows up in the observable
state returned by `getActiveControllers`. -/
theorem takeControl_records_active_source (st : ControlState) (force : Bool)
    (now : Nat) (gid rid rname : String) (gps rps : List String)
    (si : Option Nat) :
    mget (getActiveControllers
        (takeControl st (.group gid gps) force now).state).activeGroups gid =
      some ⟨gid, gps, now⟩
    ∧ mget (getActiveControllers
        (takeControl st (.routine rid rname rps si) force now).state).activeRoutines rid =
      some ⟨rname, rps, now⟩ := by
  constructor
  · exact mget_mset_self _ gid _
  · exact mget_mset_self _ rid _

/-- Claim C10: `releaseControl` unconditionally removes the group (resp.
routine) entry from the active maps — even when the source owns none of
its panels — while per-panel ownership records that do not match the
source are left unchanged. -/
theorem releaseControl_clears_active_entry (st : ControlState)
    (gid rid rname : String) (gps rps : List String) (si : Option Nat)
    (p : String) :
    mget (getActiveControllers
        (releaseControl st (.group gid gps))).activeGroups gid = none
    ∧ mget (getActiveControllers
        (releaseControl st (.routine rid rname rps si))).activeRoutines rid = none
    ∧ (∀ ex, getControlSource st p = some ex →
        sourcesMatch ex (.group gid gps) = false →
        getControlSource (releaseControl st (.group gid gps)) p = some ex) := by
  refine ⟨?_, ?_, ?_⟩
  · exact mget_mdel_self _ gid
  · exact mget_mdel_self _ rid
  · intro ex hex hm
    unfold getControlSource
    rw [releaseControl_panelControls]
    exact relFold_keep_unmatched (.group gid gps) gps st.panelControls p ex
      hex hm

/-- Modelled from the spec: `DwellGuard.CanChange(lastChangeTs, now,
minDwellSeconds)` of §4.1 — the dwell-gated executor lives in the backend
service (svc/app/service.py, simulator.py), which is not among the staged
sources.  True iff the panel never changed (`lastChangeTs == 0`) or at
least `minDwellSeconds` have elapsed. -/
def CanChange (lastChangeTs now minDwellSeconds : Nat) : Bool :=
  lastChangeTs == 0 || minDwellSeconds ≤ now - lastChangeTs

/-- A panel's mutable registry state: current level and the timestamp of
its last accepted change (epoch seconds, 0 = never changed). -/
structure SimPanel : Type where
  level : Int
  lastChangeTs : Nat
  deriving DecidableEq, Repr

/-- A submitted single-panel set-level command, carrying the submission
time. -/
structure Cmd : Type where
  panelId : String
  level : Int
  now : Nat
  deriving DecidableEq, Repr

/-- Modelled from the spec: the failure taxonomy of §7. -/
inductive FailReason : Type
  | invalidLevel
  | notFound
  | controlConflict
  | dwellRejected
  | unreachable
  | backendRejected
  deriving DecidableEq, Repr

/-- Modelled from the spec (§7): only transient `Unreachable` failures
are eligible for retry; `InvalidLevel` and the other defect-class
failures are never retried. -/
def retryable : FailReason → Bool
  | .unreachable => true
  | _ => false

/-- Result of a submitted command: accepted, or the failure reason. -/
structure SubmitResult : Type where
  ok : Bool
  reason : Option FailReason
  deriving DecidableEq, Repr

/-- Modelled from the spec: the per-panel core of `CommandExecutor.Submit`
(§4.4) — the requested level is validated to [0,100] (out of range is a
terminal `InvalidLevel` rejection touching no state), then the dwell
guard gates the change; an accepted change commits the level and the
last-change timestamp together. -/
def submitPanel (minDwell : Nat) (st : List (String × SimPanel)) (c : Cmd) :
    SubmitResult × List (String × SimPanel) :=
  if c.level < 0 || 100 < c.level then
    (⟨false, some .invalidLevel⟩, st)
  else
    match mget st c.panelId with
    | none => (⟨false, some .notFound⟩, st)
    | some pnl =>
        if CanChange pnl.lastChangeTs c.now minDwell then
          (⟨true, none⟩, mset st c.panelId ⟨c.level, c.now⟩)
        else
          (⟨false, some .dwellRejected⟩, st)

/-- Run a command sequence through the executor, collecting the committed
level changes as (panel id, timestamp) events. -/
def runCommands (minDwell : Nat) :
    List Cmd → List (String × SimPanel) →
    List (String × SimPanel) × List (String × Nat)
  | [], st => (st, [])
  | c :: cs, st =>
      let r := submitPanel minDwell st c
      let rest := runCommands minDwell cs r.2
      (rest.1, (if r.1.ok then [(c.panelId, c.now)] else []) ++ rest.2)

theorem submitPanel_invalid (minDwell : Nat) (st : List (String × SimPanel))
    (c : Cmd) (h : (c.level < 0 || 100 < c.level) = true) :
    submitPanel minDwell st c = (⟨false, some .invalidLevel⟩, st) := by
  unfold submitPanel
  rw [if_pos h]

theorem submitPanel_state_of_not_ok (minDwell : Nat)
    (st : List (String × SimPanel)) (c : Cmd)
    (h : (submitPanel minDwell st c).1.ok = false) :
    (submitPanel minDwell st c).2 = st := by
  unfold submitPanel at *
  by_cases hv : (c.level < 0 || 100 < c.level) = true
  · rw [if_pos hv]
  · rw [if_neg hv] at h ⊢
    cases hg : mget st c.panelId with
    | none => rfl
    | some pnl =>
      rw [hg] at h
      dsimp only at h ⊢
      by_cases hcc : CanChange pnl.lastChangeTs c.now minDwell = true
      · rw [if_pos hcc] at h
        cases h
      · rw [if_neg hcc]

theorem submitPanel_ok_spec (minDwell : Nat) (st : List (String × SimPanel))
    (c : Cmd) (h : (submitPanel minDwell st c).1.ok = true) :
    ∃ pnl, mget st c.panelId = some pnl
      ∧ CanChange pnl.lastChangeTs c.now minDwell = true
      ∧ (submitPanel minDwell st c).2 = mset st c.panelId ⟨c.level, c.now⟩ := by
  unfold submitPanel at *
  by_cases hv : (c.level < 0 || 100 < c.level) = true
  · rw [if_pos hv] at h
    cases h
  · rw [if_neg hv] at h ⊢
    cases hg : mget st c.panelId with
    | none =>
      rw [hg] at h
      simp at h
    | some pnl =>
      rw [hg] at h
      dsimp only at h ⊢
      by_cases hcc : CanChange pnl.lastChangeTs c.now minDwell = true
      · rw [if_pos hcc]
        exact ⟨pnl, rfl, hcc, rfl⟩
      · rw [if_neg hcc] at h
        cases h

/-- After a panel's last-change timestamp is `t > 0` and all remaining
commands are submitted no earlier than `t` in non-decreasing time order,
every further committed change on that panel happens at or after
`t + minDwell`. -/
theorem run_events_lower_bound (minDwell : Nat) :
    ∀ (cs : List Cmd) (st : List (String × SimPanel)) (p : String)
      (pnl : SimPanel), mget st p = some pnl → 0 < pnl.lastChangeTs →
      (cs.Pairwise fun a b => a.now ≤ b.now) →
      (∀ c ∈ cs, pnl.lastChangeTs ≤ c.now) →
      ∀ e ∈ (runCommands minDwell cs st).2, e.1 = p →
        pnl.lastChangeTs + minDwell ≤ e.2 := by
  intro cs
  induction cs with
  | nil => intro st p pnl _ _ _ _ e he; cases he
  | cons c t ih =>
    intro st p pnl hget hpos hmono hge e he hep
    have hmt : t.Pairwise fun a b => a.now ≤ b.now :=
      (List.pairwise_cons.mp hmono).2
    have hht : ∀ b ∈ t, c.now ≤ b.now := (List.pairwise_cons.mp hmono).1
    simp only [runCommands, List.mem_append] at he
    cases hok : (submitPanel minDwell st c).1.ok with
    | false =>
      rw [hok] at he
      simp only [if_neg Bool.false_ne_true, List.not_mem_nil, false_or] at he
      rw [submitPanel_state_of_not_ok minDwell st c hok] at he
      exact ih st p pnl hget hpos hmt
        (fun b hb => hge b (List.mem_cons_of_mem c hb)) e he hep
    | true =>
      rw [hok] at he
      obtain ⟨pnl0, hg0, hcc0, hst'⟩ := submitPanel_ok_spec minDwell st c hok
      rw [if_pos rfl] at he
      rcases he with he | he
      · -- the head event is the commit of `c` itself
        rw [List.mem_singleton] at he
        subst he
        simp only at hep
        subst hep
        have : pnl0 = pnl := by
          rw [hget] at hg0
          exact (Option.some_injective _ hg0).symm
        subst this
        have hne : (pnl0.lastChangeTs == 0) = false := by
          simp [Nat.pos_iff_ne_zero.mp hpos]
        have hdw : minDwell ≤ c.now - pnl0.lastChangeTs := by
          unfold CanChange at hcc0
          rw [hne] at hcc0
          simpa using hcc0
        have hle : pnl0.lastChangeTs ≤ c.now :=
          hge c (List.mem_cons_self c t)
        omega
      · -- events of the remaining commands
        rw [hst'] at he
        by_cases hcp : c.panelId = p
        · subst hcp
          have hget' : mget (mset st c.panelId ⟨c.level, c.now⟩) c.panelId =
              some ⟨c.level, c.now⟩ := mget_mset_self _ _ _
          have hposn : (0 : Nat) < c.now :=
            Nat.lt_of_lt_of_le hpos (hge c (List.mem_cons_self c t))
          have := ih (mset st c.panelId ⟨c.level, c.now⟩) c.panelId
            ⟨c.level, c.now⟩ hget' hposn hmt hht e he hep
          have hle : pnl.lastChangeTs ≤ c.now :=
            hge c (List.mem_cons_self c t)
          simp only at this
          omega
        · have hget' : mget (mset st c.panelId ⟨c.level, c.now⟩) p =
              some pnl := by
            rw [mget_mset_ne st c.panelId p _ hcp]
            exact hget
          exact ih (mset st c.panelId ⟨c.level, c.now⟩) p pnl hget' hpos hmt
            (fun b hb => hge b (List.mem_cons_of_mem c hb)) e he hep

/-- Claim C2, spec-modelled: running any command sequence (submitted in
non-decreasing, positive time order) through the dwell-gated executor,
no two committed level changes on the same panel are less than
`minDwell` seconds apart: each later commit on a panel is at least
`minDwell` after the earlier one. -/
theorem no_rapid_level_changes (minDwell : Nat)
    (st0 : List (String × SimPanel)) (cmds : List Cmd)
    (hmono : cmds.Pairwise fun a b => a.now ≤ b.now)
    (hpos : ∀ c ∈ cmds, 0 < c.now) :
    (runCommands minDwell cmds st0).2.Pairwise
      fun e1 e2 => e1.1 = e2.1 → e1.2 + minDwell ≤ e2.2 := by
  induction cmds generalizing st0 with
  | nil => exact List.Pairwise.nil
  | cons c t ih =>
    have hmt : t.Pairwise fun a b => a.now ≤ b.now :=
      (List.pairwise_cons.mp hmono).2
    have hht : ∀ b ∈ t, c.now ≤ b.now := (List.pairwise_cons.mp hmono).1
    have hpt : ∀ b ∈ t, 0 < b.now :=
      fun b hb => hpos b (List.mem_cons_of_mem c hb)
    simp only [runCommands]
    cases hok : (submitPanel minDwell st0 c).1.ok with
    | false =>
      simp only [if_neg Bool.false_ne_true, List.nil_append]
      rw [submitPanel_state_of_not_ok minDwell st0 c hok]
      exact ih _ hmt hpt
    | true =>
      obtain ⟨pnl0, hg0, hcc0, hst'⟩ := submitPanel_ok_spec minDwell st0 c hok
      simp only [if_pos rfl, List.singleton_append]
      refine List.Pairwise.cons ?_ (ih _ hmt hpt)
      intro e he hep
      simp only at hep
      rw [hst'] at he
      have hget' : mget (mset st0 c.panelId ⟨c.level, c.now⟩) c.panelId =
          some ⟨c.level, c.now⟩ := mget_mset_self _ _ _
      have hposn : (0 : Nat) < c.now := hpos c (List.mem_cons_self c t)
      have := run_events_lower_bound minDwell t
        (mset st0 c.panelId ⟨c.level, c.now⟩) c.panelId ⟨c.level, c.now⟩
        hget' hposn hmt hht e he (hep ▸ rfl)
      simpa using this

/-- Witness for C2's theorem: two commits on P01 at times 5 and 30 under
a 20-second dwell are at least 20 seconds apart. -/
theorem no_rapid_level_changes_witness :
    (runCommands 20 [⟨"P01", 80, 5⟩, ⟨"P01", 60, 30⟩]
      [("P01", ⟨50, 0⟩)]).2.Pairwise
      (fun e1 e2 => e1.1 = e2.1 → e1.2 + 20 ≤ e2.2) :=
  no_rapid_level_changes 20 [("P01", ⟨50, 0⟩)]
    [⟨"P01", 80, 5⟩, ⟨"P01", 60, 30⟩] (by decide) (by decide)

/-- Claim C7, spec-modelled: a set-level command whose requested level is
outside [0,100] terminates as a rejection with reason `InvalidLevel`, no
panel's level or last-change timestamp is modified, and `InvalidLevel`
is not a retryable failure. -/
theorem submit_invalid_level_rejected (minDwell : Nat)
    (st : List (String × SimPanel)) (c : Cmd)
    (h : c.level < 0 ∨ 100 < c.level) :
    (submitPanel minDwell st c).1 =
      { ok := false, reason := some .invalidLevel }
    ∧ (submitPanel minDwell st c).2 = st
    ∧ retryable .invalidLevel = false := by
  have hb : (c.level < 0 || 100 < c.level) = true := by
    rcases h with h | h <;> simp [h]
  rw [submitPanel_invalid minDwell st c hb]
  exact ⟨rfl, rfl, rfl⟩

/-- Witness for C7's theorem: a request for level 150 is rejected as
`InvalidLevel` and the registry is untouched. -/
theorem submit_invalid_level_rejected_witness :
    (submitPanel 20 [("P01", ⟨50, 0⟩)] ⟨"P01", 150, 5⟩).1 =
      { ok := false, reason := some .invalidLevel }
    ∧ (submitPanel 20 [("P01", ⟨50, 0⟩)] ⟨"P01", 150, 5⟩).2 =
      [("P01", ⟨50, 0⟩)] :=
  let h := submit_invalid_level_rejected 20 [("P01", ⟨50, 0⟩)]
    ⟨"P01", 150, 5⟩ (Or.inr (by decide))
  ⟨h.1, h.2.1⟩

/-- Target type of an audit entry (src/web/src/api.ts `AuditLogEntry`). -/
inductive TargetType : Type
  | panel
  | group
  deriving DecidableEq, Repr

/-- The string value the source stores for a target type. -/
def targetTypeStr : TargetType → String
  | .panel => "panel"
  | .group => "group"

/-- An audit-log row as the UI receives it (src/web/src/api.ts). -/
structure AuditLogEntry : Type where
  ts : Int
  actor : String
  target_type : TargetType
  target_id : String
  level : Int
  applied_to : List String
  result : String
  deriving DecidableEq, Repr

/-- The sortable columns of the logs table (LogsPanel.tsx `SortField`). -/
inductive SortField : Type
  | ts
  | actor
  | targetType
  | targetId
  | level
  deriving DecidableEq, Repr

/-- Sort direction (LogsPanel.tsx `sortDir`). -/
inductive SortDir : Type
  | asc
  | desc
  deriving DecidableEq, Repr

/-- `List.isPrefixOf` on characters, written out. -/
def chPrefix : List Char → List Char → Bool
  | [], _ => true
  | _ :: _, [] => false
  | a :: as_, b :: bs => a = b && chPrefix as_ bs

/-- JS `String.prototype.includes`: `needle` occurs as a contiguous
substring of `hay`. -/
def strIncludes (hay needle : String) : Bool :=
  go needle.toList hay.toList
where
  go (n : List Char) : List Char → Bool
    | [] => n.isEmpty
    | c :: t => chPrefix n (c :: t) || go n t

/-- The filter state of the logs panel, with the two date inputs already
converted to their numeric timestamp bounds (the conversion itself runs
through the JS `Date` in the user's local timezone). -/
structure LogFilters : Type where
  startTs : Option Int
  endTs : Option Int
  typeFilter : Option TargetType
  targetFilter : String
  resultFilter : String
  sortField : SortField
  sortDir : SortDir

/-- LogsPanel.tsx lines 61-64: keep rows with `r.ts >= startTs`. -/
def rowsAfterStart (f : LogFilters) (rows : List AuditLogEntry) :
    List AuditLogEntry :=
  match f.startTs with
  | none => rows
  | some t => rows.filter fun r => t ≤ r.ts

/-- LogsPanel.tsx lines 65-68: keep rows with `r.ts <= endTs`. -/
def rowsAfterEnd (f : LogFilters) (rows : List AuditLogEntry) :
    List AuditLogEntry :=
  match f.endTs with
  | none => rows
  | some t => rows.filter fun r => r.ts ≤ t

/-- LogsPanel.tsx lines 70-72: keep rows whose target type equals the
selected type (`"all"` is `none` here). -/
def rowsAfterType (f : LogFilters) (rows : List AuditLogEntry) :
    List AuditLogEntry :=
  match f.typeFilter with
  | none => rows
  | some tt => rows.filter fun r => r.target_type = tt

/-- The target-filter predicate of LogsPanel.tsx lines 76-80: the target
id, or some applied-to id, contains the needle case-insensitively. -/
def matchesTarget (needle : String) (r : AuditLogEntry) : Bool :=
  strIncludes r.target_id.toLower needle ||
    r.applied_to.any fun id => strIncludes id.toLower needle

/-- LogsPanel.tsx lines 74-81: apply the target filter when it is not
blank after trimming. -/
def rowsAfterTarget (f : LogFilters) (rows : List AuditLogEntry) :
    List AuditLogEntry :=
  if f.targetFilter.trim ≠ "" then
    rows.filter (matchesTarget f.targetFilter.trim.toLower)
  else rows

/-- LogsPanel.tsx lines 83-86: apply the result filter when it is not
blank after trimming. -/
def rowsAfterResult (f : LogFilters) (rows : List AuditLogEntry) :
    List AuditLogEntry :=
  if f.resultFilter.trim ≠ "" then
    rows.filter fun r =>
      strIncludes r.result.toLower f.resultFilter.trim.toLower
  else rows

/-- The numeric comparator branch of the sort (ts / level columns). -/
def numCmp (dir : SortDir) (x y : Int) : Int :=
  if x < y then (match dir with | .asc => -1 | .desc => 1)
  else if y < x then (match dir with | .asc => 1 | .desc => -1)
  else 0

/-- The string comparator branch of the sort: lowercase, then compare. -/
def strCmp (dir : SortDir) (x y : String) : Int :=
  let xs := x.toLower
  let ys := y.toLower
  if xs < ys then (match dir with | .asc => -1 | .desc => 1)
  else if ys < xs then (match dir with | .asc => 1 | .desc => -1)
  else 0

/-- The row comparator of LogsPanel.tsx lines 89-106. -/
def cmpRows (field : SortField) (dir : SortDir) (a b : AuditLogEntry) : Int :=
  match field with
  | .ts => numCmp dir a.ts b.ts
  | .level => numCmp dir a.level b.level
  | .actor => strCmp dir a.actor b.actor
  | .targetType =>
      strCmp dir (targetTypeStr a.target_type) (targetTypeStr b.target_type)
  | .targetId => strCmp dir a.target_id b.target_id

/-- Insert one row into a list sorted by the comparator. -/
def insertRow (le : AuditLogEntry → AuditLogEntry → Bool)
    (x : AuditLogEntry) : List AuditLogEntry → List AuditLogEntry
  | [] => [x]
  | y :: t => if le x y then x :: y :: t else y :: insertRow le x t

/-- The `[...rows].sort(comparator)` step as an insertion sort: the
result is a reordering of the filtered rows. -/
def sortRows (field : SortField) (dir : SortDir) :
    List AuditLogEntry → List AuditLogEntry
  | [] => []
  | x :: t => insertRow (fun a b => cmpRows field dir a b ≤ 0) x
      (sortRows field dir t)

/-- LogsPanel.tsx `filteredAuditLogs` (lines 56-109): the sequential
filters, then the sort of a copy of the remaining rows.  The underlying
`auditLogs` input is read, never mutated. -/
def filteredAuditLogs (auditLogs : List AuditLogEntry) (f : LogFilters) :
    List AuditLogEntry :=
  sortRows f.sortField f.sortDir
    (rowsAfterResult f (rowsAfterTarget f (rowsAfterType f
      (rowsAfterEnd f (rowsAfterStart f auditLogs)))))

theorem mem_insertRow (le : AuditLogEntry → AuditLogEntry → Bool)
    (x e : AuditLogEntry) (l : List AuditLogEntry) :
    e ∈ insertRow le x l ↔ e = x ∨ e ∈ l := by
  induction l with
  | nil => simp [insertRow]
  | cons y t ih =>
    by_cases hle : le x y = true
    · simp [insertRow, hle]
    · simp only [insertRow, if_neg hle, List.mem_cons, ih]
      tauto

theorem mem_sortRows (field : SortField) (dir : SortDir) (e : AuditLogEntry)
    (l : List AuditLogEntry) : e ∈ sortRows field dir l ↔ e ∈ l := by
  induction l with
  | nil => simp [sortRows]
  | cons x t ih =>
    simp only [sortRows, mem_insertRow, List.mem_cons, ih]

theorem mem_rowsAfterStart (f : LogFilters) (rows : List AuditLogEntry)
    (e : AuditLogEntry) :
    e ∈ rowsAfterStart f rows ↔
      e ∈ rows ∧ ∀ t, f.startTs = some t → t ≤ e.ts := by
  unfold rowsAfterStart
  cases f.startTs with
  | none => simp
  | some t => simp [List.mem_filter]

theorem mem_rowsAfterEnd (f : LogFilters) (rows : List AuditLogEntry)
    (e : AuditLogEntry) :
    e ∈ rowsAfterEnd f rows ↔
      e ∈ rows ∧ ∀ t, f.endTs = some t → e.ts ≤ t := by
  unfold rowsAfterEnd
  cases f.endTs with
  | none => simp
  | some t => simp [List.mem_filter]

theorem mem_rowsAfterType (f : LogFilters) (rows : List AuditLogEntry)
    (e : AuditLogEntry) :
    e ∈ rowsAfterType f rows ↔
      e ∈ rows ∧ ∀ tt, f.typeFilter = some tt → e.target_type = tt := by
  unfold rowsAfterType
  cases f.typeFilter with
  | none => simp
  | some tt => simp [List.mem_filter]

theorem mem_rowsAfterTarget (f : LogFilters) (rows : List AuditLogEntry)
    (e : AuditLogEntry) :
    e ∈ rowsAfterTarget f rows ↔
      e ∈ rows ∧ (f.targetFilter.trim ≠ "" →
        matchesTarget f.targetFilter.trim.toLower e = true) := by
  unfold rowsAfterTarget
  by_cases hb : f.targetFilter.trim ≠ ""
  · simp [hb, List.mem_filter]
  · simp [hb]

theorem mem_rowsAfterResult (f : LogFilters) (rows : List AuditLogEntry)
    (e : AuditLogEntry) :
    e ∈ rowsAfterResult f rows ↔
      e ∈ rows ∧ (f.resultFilter.trim ≠ "" →
        strIncludes e.result.toLower f.resultFilter.trim.toLower = true) := by
  unfold rowsAfterResult
  by_cases hb : f.resultFilter.trim ≠ ""
  · simp [hb, List.mem_filter]
  · simp [hb]

/-- Claim C8: an audit entry appears in the filtered query result iff it
is one of the loaded entries, its timestamp lies within the selected
time range (when given), its target type equals the selected type (when
one is selected), its target id or one of its applied-to ids contains
the target filter case-insensitively (when that filter is non-blank),
and its result string contains the result filter case-insensitively
(when that filter is non-blank).  The query reads `auditLogs` and builds
a new list; the underlying entries are never modified. -/
theorem mem_filteredAuditLogs_iff (auditLogs : List AuditLogEntry)
    (f : LogFilters) (e : AuditLogEntry) :
    e ∈ filteredAuditLogs auditLogs f ↔
      e ∈ auditLogs
      ∧ (∀ t, f.startTs = some t → t ≤ e.ts)
      ∧ (∀ t, f.endTs = some t → e.ts ≤ t)
      ∧ (∀ tt, f.typeFilter = some tt → e.target_type = tt)
      ∧ (f.targetFilter.trim ≠ "" →
          (strIncludes e.target_id.toLower f.targetFilter.trim.toLower = true
          ∨ ∃ id ∈ e.applied_to,
              strIncludes id.toLower f.targetFilter.trim.toLower = true))
      ∧ (f.resultFilter.trim ≠ "" →
          strIncludes e.result.toLower f.resultFilter.trim.toLower = true) := by
  unfold filteredAuditLogs
  rw [mem_sortRows, mem_rowsAfterResult, mem_rowsAfterTarget,
    mem_rowsAfterType, mem_rowsAfterEnd, mem_rowsAfterStart]
  have hmt : ∀ h : f.targetFilter.trim ≠ "",
      (matchesTarget f.targetFilter.trim.toLower e = true ↔
        (strIncludes e.target_id.toLower f.targetFilter.trim.toLower = true
        ∨ ∃ id ∈ e.applied_to,
            strIncludes id.toLower f.targetFilter.trim.toLower = true)) := by
    intro _
    unfold matchesTarget
    simp [List.any_eq_true]
  constructor
  · rintro ⟨⟨⟨⟨⟨h0, h1⟩, h2⟩, h3⟩, h4⟩, h5⟩
    exact ⟨h0, h1, h2, h3, fun hb => (hmt hb).mp (h4 hb), h5⟩
  · rintro ⟨h0, h1, h2, h3, h4, h5⟩
    exact ⟨⟨⟨⟨⟨h0, h1⟩, h2⟩, h3⟩, fun hb => (hmt hb).mpr (h4 hb)⟩, h5⟩

end GlazingControl
